import Mathlib

/-!
Verification development for the BG-Remover image pipeline (`app5bg.py`).

The development gives a shallow embedding of the pipeline functions
`compress_and_resize`, `add_bg`, `download_image_from_url` and
`process_images`, of the module import guard at the top of the file, and of
the Streamlit URL-preview handler, and proves the specified properties about
them.  Raster images are modelled as explicit pixel grids; the external
libraries the script calls into (PIL, requests, rembg, streamlit) are
modelled by their documented behaviour at exactly the operations the script
uses, as follows.

* PIL images: a `RasterImage` records width, height, colour mode (the script
  only ever handles opaque RGB and RGBA-with-alpha) and a row-major pixel
  list.  `Image.resize` is modelled as producing an image of exactly the
  requested dimensions in the source mode, sampling source pixels; the exact
  Lanczos kernel weights are abstracted by coordinate sampling, since no
  property in scope depends on the kernel.  `Image.new`, `Image.paste` (at
  the origin, with an optional alpha mask, onto an RGB canvas — the only
  forms the script uses) and `convert` to RGB are modelled per-pixel.
* PNG encoding (`img.save(buf, "PNG")`) and decoding (`Image.open`) are
  modelled as a lossless serialisation of the pixel grid: a mode byte,
  4-byte big-endian dimensions, then the channel bytes of each pixel.
* The rembg segmentation model is an opaque function on images, passed as a
  parameter `rm` (the fixed alpha-matting thresholds do not change that it
  is a black box).
* `requests.get` plus `raise_for_status` is an oracle
  `net : String → Except String (List Nat)` giving either the body bytes or
  a failure message; `st.warning` is modelled by collecting warning strings.
-/

namespace BGRemover

/-- One pixel sample: red, green, blue and alpha channels (8-bit, so the
well-formedness predicate bounds every channel by 256). -/
structure Pixel where
  r : Nat
  g : Nat
  b : Nat
  a : Nat
  deriving DecidableEq, Repr

/-- The two pixel-colour modes the script handles: opaque RGB and
RGBA-with-alpha. -/
inductive Mode where
  | RGB
  | RGBA
  deriving DecidableEq, Repr

/-- A decoded in-memory bitmap: width, height, mode, and a row-major pixel
list. -/
structure RasterImage where
  width : Nat
  height : Nat
  mode : Mode
  pixels : List Pixel
  deriving DecidableEq, Repr

/-- The default pixel used when a lookup falls outside the stored grid:
opaque black. -/
def defaultPixel : Pixel := ⟨0, 0, 0, 255⟩

/-- Pixel lookup at column x, row y (row-major). -/
def pixelAt (img : RasterImage) (x y : Nat) : Pixel :=
  img.pixels.getD (y * img.width + x) defaultPixel

/-- Builds a w×h image whose pixel at (x, y) is f x y. -/
def mkImage (w h : Nat) (m : Mode) (f : Nat → Nat → Pixel) : RasterImage :=
  ⟨w, h, m, (List.range (w * h)).map fun i => f (i % w) (i / w)⟩

/-- An RGB colour as supplied by the UI colour picker (a 3-tuple of 8-bit
channel values in the script). -/
structure Color where
  r : Nat
  g : Nat
  b : Nat
  deriving DecidableEq, Repr

/-- A colour viewed as an opaque pixel. -/
def Color.toPixel (c : Color) : Pixel := ⟨c.r, c.g, c.b, 255⟩

/-- The WHITE_COLOR constant of the script: (255, 255, 255). -/
def WHITE_COLOR : Color := ⟨255, 255, 255⟩

/-- Models PIL Image.new(mode, (w, h), colour): a constant image. -/
def imageNew (m : Mode) (w h : Nat) (c : Pixel) : RasterImage :=
  mkImage w h m fun _ _ => c

/-- Models PIL Image.resize(size, LANCZOS): the result has exactly the
requested dimensions and keeps the source mode; each target pixel samples
the source grid.  The Lanczos kernel weights are abstracted by coordinate
sampling, since no property in scope depends on them. -/
def resize (img : RasterImage) (size : Nat × Nat) : RasterImage :=
  mkImage size.1 size.2 img.mode fun x y =>
    pixelAt img (x * img.width / size.1) (y * img.height / size.2)

/-- Alpha blending of one channel, PIL paste-with-mask semantics:
foreground·alpha + background·(1 − alpha), scaled by 255. -/
def blendChannel (fg bg alpha : Nat) : Nat :=
  (fg * alpha + bg * (255 - alpha)) / 255

/-- Alpha blending of a foreground pixel over an (opaque) background pixel
with the given mask alpha. -/
def blendPixel (fg bg : Pixel) (alpha : Nat) : Pixel :=
  ⟨blendChannel fg.r bg.r alpha, blendChannel fg.g bg.g alpha,
   blendChannel fg.b bg.b alpha, 255⟩

/-- Models PIL canvas.paste(img, (0, 0), mask) onto an RGB canvas, the only
form the script uses; when useMask is true the mask is the pasted image
itself, so its own alpha channel is the blend weight.  Without a mask the
pasted pixel overwrites the canvas pixel (alpha discarded, canvas opaque). -/
def paste (canvas img : RasterImage) (useMask : Bool) : RasterImage :=
  mkImage canvas.width canvas.height canvas.mode fun x y =>
    if x < img.width ∧ y < img.height then
      let p := pixelAt img x y
      if useMask then blendPixel p (pixelAt canvas x y) p.a
      else ⟨p.r, p.g, p.b, 255⟩
    else pixelAt canvas x y

/-- Models PIL image.convert(RGB): the alpha channel is discarded (colour
channels kept as-is, result opaque). -/
def convertRGB (img : RasterImage) : RasterImage :=
  { img with mode := Mode.RGB, pixels := img.pixels.map fun p => ⟨p.r, p.g, p.b, 255⟩ }

/-- The compress_and_resize function of the script: resize to the requested
size, then paste onto a white RGB canvas of the same size, using the resized
image as its own alpha mask exactly when its mode is RGBA. -/
def compress_and_resize (image : RasterImage) (size : Nat × Nat) : RasterImage :=
  let image := resize image size
  let canvas := imageNew Mode.RGB image.width image.height WHITE_COLOR.toPixel
  paste canvas image (image.mode == Mode.RGBA)

/-- The add_bg function of the script: if the image mode is RGBA, paste it
over an opaque canvas of the chosen colour using its own alpha channel as
mask; otherwise plain conversion to RGB with no blending. -/
def add_bg (image : RasterImage) (color : Color) : RasterImage :=
  if image.mode = Mode.RGBA then
    let bg := imageNew Mode.RGB image.width image.height color.toPixel
    paste bg image true
  else convertRGB image

/-- The remove_background function of the script: it delegates to the
external rembg model (with fixed alpha-matting parameters), which is treated
as an opaque function rm on images. -/
def remove_background (rm : RasterImage → RasterImage) (image : RasterImage) : RasterImage :=
  rm image

/-- The optional background-compositing stage inside process_images: the
body of the `if replace_bg` guard around add_bg. -/
def compositeBackground (image : RasterImage) (color : Color) (enabled : Bool) : RasterImage :=
  if enabled then add_bg image color else image

/-- The mode byte of the modelled PNG serialisation. -/
def Mode.toByte : Mode → Nat
  | Mode.RGB => 0
  | Mode.RGBA => 1

/-- Parses a mode byte back. -/
def byteToMode : Nat → Option Mode
  | 0 => some Mode.RGB
  | 1 => some Mode.RGBA
  | _ => none

/-- A dimension as four big-endian bytes (PNG stores dimensions as 4-byte
big-endian integers). -/
def enc32 (n : Nat) : List Nat :=
  [n / 16777216 % 256, n / 65536 % 256, n / 256 % 256, n % 256]

/-- Parses a 4-byte big-endian dimension, validating that each entry is a
byte. -/
def dec32 (bs : List Nat) : Option (Nat × List Nat) :=
  match bs with
  | b0 :: b1 :: b2 :: b3 :: rest =>
    if b0 < 256 ∧ b1 < 256 ∧ b2 < 256 ∧ b3 < 256 then
      some (((b0 * 256 + b1) * 256 + b2) * 256 + b3, rest)
    else none
  | _ => none

/-- The channel bytes of one pixel: 3 bytes in RGB mode, 4 in RGBA mode. -/
def encodePixel (m : Mode) (p : Pixel) : List Nat :=
  match m with
  | Mode.RGB => [p.r, p.g, p.b]
  | Mode.RGBA => [p.r, p.g, p.b, p.a]

/-- Parses exactly k pixels in mode m, requiring the byte list to be
consumed completely and every channel to be a byte. -/
def decodePixels (m : Mode) : Nat → List Nat → Option (List Pixel)
  | 0, [] => some []
  | 0, _ :: _ => none
  | k + 1, bs =>
    match m, bs with
    | Mode.RGB, r :: g :: b :: rest =>
      if r < 256 ∧ g < 256 ∧ b < 256 then
        (decodePixels Mode.RGB k rest).map (fun ps => ⟨r, g, b, 255⟩ :: ps)
      else none
    | Mode.RGBA, r :: g :: b :: a :: rest =>
      if r < 256 ∧ g < 256 ∧ b < 256 ∧ a < 256 then
        (decodePixels Mode.RGBA k rest).map (fun ps => ⟨r, g, b, a⟩ :: ps)
      else none
    | _, _ => none

/-- Models img.save(buf, PNG): PNG is a lossless serialisation of the pixel
grid, modelled as a mode byte, the two 4-byte dimensions, and the channel
bytes of every pixel in row-major order. -/
def encodePNG (img : RasterImage) : List Nat :=
  img.mode.toByte :: (enc32 img.width ++ enc32 img.height
    ++ (img.pixels.map (encodePixel img.mode)).flatten)

/-- Models PIL Image.open on an in-memory byte stream: either the bytes
parse as an image or decoding fails (an exception in the script, none
here). -/
def decodePNG (bs : List Nat) : Option RasterImage := do
  match bs with
  | t :: rest =>
    let m ← byteToMode t
    let d1 ← dec32 rest
    let d2 ← dec32 d1.2
    let ps ← decodePixels m (d1.1 * d2.1) d2.2
    pure ⟨d1.1, d2.1, m, ps⟩
  | [] => none

/-- Well-formedness of one pixel for a given image mode: channels are
bytes, and RGB-mode pixels are opaque. -/
def PixelWF (m : Mode) (p : Pixel) : Prop :=
  p.r < 256 ∧ p.g < 256 ∧ p.b < 256 ∧ p.a < 256 ∧ (m = Mode.RGB → p.a = 255)

instance (m : Mode) (p : Pixel) : Decidable (PixelWF m p) := by
  unfold PixelWF; infer_instance

/-- Well-formedness of an image: the pixel list fills the grid, the
dimensions fit in the 4-byte PNG fields, and every pixel is well formed for
the mode. -/
def WF (img : RasterImage) : Prop :=
  img.pixels.length = img.width * img.height ∧
  img.width < 4294967296 ∧ img.height < 4294967296 ∧
  ∀ p ∈ img.pixels, PixelWF img.mode p

instance (img : RasterImage) : Decidable (WF img) := by
  unfold WF; infer_instance

/-- Well-formedness of a colour: the three channels are bytes. -/
def ColorWF (c : Color) : Prop :=
  c.r < 256 ∧ c.g < 256 ∧ c.b < 256

instance (c : Color) : Decidable (ColorWF c) := by
  unfold ColorWF; infer_instance

/-- One output record of process_images: the generated file name, the
encoded PNG bytes, and the final image. -/
structure ProcessedResult where
  name : String
  buf : List Nat
  img : RasterImage
  deriving DecidableEq, Repr

/-- The body of the process_images loop for one input at 1-based index idx:
decode, remove background (the opaque model rm), optionally composite onto
bg_color, resize, encode, and name the output.  Decoding failure is an
uncaught exception in the script, modelled as none. -/
def process_one (rm : RasterImage → RasterImage) (base : String) (size : Nat × Nat)
    (replace_bg : Bool) (bg_color : Color) (idx : Nat) (f : List Nat) :
    Option ProcessedResult :=
  (decodePNG f).map fun img0 =>
    let img1 := remove_background rm img0
    let img2 := compositeBackground img1 bg_color replace_bg
    let img3 := compress_and_resize img2 size
    ⟨base ++ "_" ++ toString idx ++ ".png", encodePNG img3, img3⟩

/-- The loop of process_images, carrying the 1-based enumeration index.  An
exception raised at any item propagates out of the Python function, so the
whole call yields none and the partial output list is discarded. -/
def process_images_go (rm : RasterImage → RasterImage) (base : String) (size : Nat × Nat)
    (replace_bg : Bool) (bg_color : Color) : Nat → List (List Nat) →
    Option (List ProcessedResult)
  | _, [] => some []
  | idx, f :: fs =>
    match process_one rm base size replace_bg bg_color idx f with
    | none => none
    | some r => (process_images_go rm base size replace_bg bg_color (idx + 1) fs).map
        (fun rs => r :: rs)

/-- The process_images function of the script: enumerate the input byte
streams from 1 and run the pipeline on each.  rm is the opaque external
segmentation model. -/
def process_images (rm : RasterImage → RasterImage) (files : List (List Nat))
    (base : String) (size : Nat × Nat) (replace_bg : Bool) (bg_color : Color) :
    Option (List ProcessedResult) :=
  process_images_go rm base size replace_bg bg_color 1 files

/-- The warning text surfaced when a URL cannot be fetched. -/
def fetchWarning (url e : String) : String :=
  "Could not fetch " ++ url ++ ": " ++ e

/-- The download_image_from_url function of the script: requests.get plus
raise_for_status is the oracle net (ok gives the body bytes; error covers
network failures, timeouts and non-2xx statuses).  Any exception is caught:
the result is none together with the surfaced warning. -/
def download_image_from_url (net : String → Except String (List Nat)) (url : String) :
    Option (List Nat) × List String :=
  match net url with
  | Except.ok content => (some content, [])
  | Except.error e => (none, [fetchWarning url e])

/-- The Preview URL Images handler loop of the script: fetch each URL in
order, keep the buffers of the successful fetches, accumulate the warnings
of the failed ones. -/
def previewURLs (net : String → Except String (List Nat)) (urls : List String) :
    List (List Nat) × List String :=
  urls.foldl
    (fun acc url =>
      let r := download_image_from_url net url
      match r.1 with
      | some buf => (acc.1 ++ [buf], acc.2 ++ r.2)
      | none => (acc.1, acc.2 ++ r.2))
    ([], [])

/-- The possible outcomes of the module import sequence at the top of the
script. -/
inductive StartOutcome where
  | unhandledError (modName : String)
  | exitWithInstructions (modName message : String)
  | running
  deriving DecidableEq, Repr

/-- The message printed by the import guard before exiting. -/
def installInstructions (modName : String) : String :=
  "Required module not found: " ++ modName
    ++ ". Please install it using: pip install streamlit rembg pillow requests"

/-- The modules imported before the try block, in order: a missing one
raises an unhandled ModuleNotFoundError (a bare traceback, no install
instructions). -/
def unguardedImports : List String := ["os", "zipfile", "io", "PIL", "requests"]

/-- The modules imported inside the try block: a missing one is caught, the
install instructions are printed, and the process exits. -/
def guardedImports : List String := ["streamlit", "rembg"]

/-- Every external module the script needs at startup. -/
def requiredModules : List String := unguardedImports ++ guardedImports

/-- The startup import sequence of the script, over an availability map of
installed modules. -/
def startup (avail : String → Bool) : StartOutcome :=
  match unguardedImports.find? (fun m => !avail m) with
  | some m => StartOutcome.unhandledError m
  | none =>
    match guardedImports.find? (fun m => !avail m) with
    | some m => StartOutcome.exitWithInstructions m (installInstructions m)
    | none => StartOutcome.running

/-- Concrete 1-pixel images, byte streams, colours and batch outputs used
by the witness theorems below. -/
def imgRGB1 : RasterImage := ⟨1, 1, Mode.RGB, [⟨10, 20, 30, 255⟩]⟩

def imgRGBA1 : RasterImage := ⟨1, 1, Mode.RGBA, [⟨10, 20, 30, 128⟩]⟩

def blueColor : Color := ⟨0, 0, 255⟩

def imgTransparent1 : RasterImage := ⟨1, 1, Mode.RGBA, [⟨10, 20, 30, 0⟩]⟩

def sampleRGB : RasterImage := ⟨1, 1, Mode.RGB, [⟨5, 6, 7, 255⟩]⟩

def sampleBytes : List Nat := encodePNG sampleRGB

def sampleResults : List ProcessedResult :=
  (process_images (fun i => i) [sampleBytes] "x" (1, 1) false WHITE_COLOR).getD []

def sampleResult : ProcessedResult := sampleResults.getD 0 ⟨"", [], sampleRGB⟩

def sampleBytes2 : List Nat := encodePNG ⟨1, 1, Mode.RGBA, [⟨1, 2, 3, 4⟩]⟩

def sampleResults2 : List ProcessedResult :=
  (process_images (fun i => i) [sampleBytes, sampleBytes2] "b" (1, 1) false WHITE_COLOR).getD []

/-- Value of a decimal digit character (the inverse of Nat.digitChar on
digits below ten), used to prove Nat.repr injective. -/
def decDigit (c : Char) : Nat :=
  if c = '0' then 0 else if c = '1' then 1 else if c = '2' then 2 else
  if c = '3' then 3 else if c = '4' then 4 else if c = '5' then 5 else
  if c = '6' then 6 else if c = '7' then 7 else if c = '8' then 8 else 9

/-- Value of a decimal digit string, most significant digit first. -/
def decValue (cs : List Char) : Nat :=
  cs.foldl (fun acc c => acc * 10 + decDigit c) 0

/-- The availability map of an environment with every module installed
except PIL (Pillow). -/
def availExceptPIL (m : String) : Bool := !(m == "PIL")

/-! ## Generic helpers -/

theorem getD_prop {α : Type} {P : α → Prop} (l : List α) (i : Nat) (d : α)
    (h1 : ∀ x ∈ l, P x) (h2 : P d) : P (l.getD i d) := by
  rw [List.getD_eq_getElem?_getD]
  cases h : l[i]? with
  | none => simpa using h2
  | some x => simpa using h1 x (List.getElem?_mem h)

theorem mem_mkImage_pixels {w h : Nat} {m : Mode} {f : Nat → Nat → Pixel} {p : Pixel}
    (hp : p ∈ (mkImage w h m f).pixels) : ∃ i, i < w * h ∧ p = f (i % w) (i / w) := by
  simp only [mkImage, List.mem_map, List.mem_range] at hp
  obtain ⟨i, hi, he⟩ := hp
  exact ⟨i, hi, he.symm⟩

theorem pixelAt_mkImage {w h : Nat} {m : Mode} {f : Nat → Nat → Pixel} {x y : Nat}
    (hx : x < w) (hy : y < h) : pixelAt (mkImage w h m f) x y = f x y := by
  have hw : 0 < w := by omega
  have hlt : y * w + x < w * h := by
    have h1 : (y + 1) * w = y * w + w := by ring
    have h2 : (y + 1) * w ≤ h * w := Nat.mul_le_mul_right w hy
    have h3 : h * w = w * h := Nat.mul_comm h w
    omega
  unfold pixelAt mkImage
  have hlen : y * w + x < ((List.range (w * h)).map
      (fun i => f (i % w) (i / w))).length := by simpa using hlt
  rw [List.getD_eq_getElem _ _ hlen, List.getElem_map, List.getElem_range]
  have hmod : (y * w + x) % w = x := by
    rw [Nat.add_comm, Nat.add_mul_mod_self_right, Nat.mod_eq_of_lt hx]
  have hdiv : (y * w + x) / w = y := by
    rw [Nat.add_comm, Nat.add_mul_div_right x y hw, Nat.div_eq_of_lt hx, Nat.zero_add]
  rw [hmod, hdiv]

theorem pixelAt_imageNew_prop {m : Mode} {w h : Nat} {c : Pixel} {x y : Nat}
    (P : Pixel → Prop) (hc : P c) (hd : P defaultPixel) :
    P (pixelAt (imageNew m w h c) x y) := by
  unfold pixelAt imageNew mkImage
  refine getD_prop _ _ _ ?_ hd
  intro q hq
  simp only [List.mem_map, List.mem_range] at hq
  obtain ⟨i, _, rfl⟩ := hq
  exact hc

/-! ## Output geometry and opacity (compress_and_resize) -/

/-- Claim C3: for every input image (any mode) and every target size, the
output of compress_and_resize has dimensions exactly equal to the target
size and is a fully opaque 3-channel RGB image. -/
theorem claim_C3 (image : RasterImage) (size : Nat × Nat) :
    (compress_and_resize image size).width = size.1 ∧
    (compress_and_resize image size).height = size.2 ∧
    (compress_and_resize image size).mode = Mode.RGB ∧
    ∀ p ∈ (compress_and_resize image size).pixels, p.a = 255 := by
  refine ⟨rfl, rfl, rfl, ?_⟩
  intro p hp
  unfold compress_and_resize paste at hp
  obtain ⟨i, hi, he⟩ := mem_mkImage_pixels hp
  subst he
  dsimp only
  split
  · split
    · rfl
    · rfl
  · exact pixelAt_imageNew_prop (fun q => q.a = 255) rfl rfl

/-! ## The enabled=false compositing path -/

/-- Claim C8: compositeBackground with enabled set to false is the identity
transform: the image is returned unchanged, pixel for pixel, mode included,
before the resize stage. -/
theorem claim_C8 (image : RasterImage) (color : Color) :
    compositeBackground image color false = image := rfl

/-! ## bg_color non-interference when replace_bg is false -/

theorem process_one_false_color (rm : RasterImage → RasterImage) (base : String)
    (size : Nat × Nat) (c1 c2 : Color) (idx : Nat) (f : List Nat) :
    process_one rm base size false c1 idx f = process_one rm base size false c2 idx f := rfl

theorem process_images_go_false_color (rm : RasterImage → RasterImage) (base : String)
    (size : Nat × Nat) (c1 c2 : Color) (idx : Nat) (files : List (List Nat)) :
    process_images_go rm base size false c1 idx files
      = process_images_go rm base size false c2 idx files := by
  induction files generalizing idx with
  | nil => rfl
  | cons f fs ih =>
    simp only [process_images_go]
    rw [process_one_false_color rm base size c1 c2 idx f, ih (idx + 1)]

/-- Claim C10: when replace_bg is false the output of process_images does
not depend on bg_color: two runs differing only in the bg_color argument
produce identical results (same names, same pixel data, same bytes). -/
theorem claim_C10 (rm : RasterImage → RasterImage) (files : List (List Nat))
    (base : String) (size : Nat × Nat) (c1 c2 : Color) :
    process_images rm files base size false c1 = process_images rm files base size false c2 :=
  process_images_go_false_color rm base size c1 c2 1 files

/-! ## The replace-background path (add_bg) -/

theorem imageNew_width (m : Mode) (w h : Nat) (c : Pixel) : (imageNew m w h c).width = w := rfl

theorem imageNew_height (m : Mode) (w h : Nat) (c : Pixel) : (imageNew m w h c).height = h := rfl

theorem imageNew_mode (m : Mode) (w h : Nat) (c : Pixel) : (imageNew m w h c).mode = m := rfl

theorem pixelAt_imageNew {m : Mode} {w h : Nat} {c : Pixel} {x y : Nat}
    (hx : x < w) (hy : y < h) : pixelAt (imageNew m w h c) x y = c :=
  pixelAt_mkImage hx hy

theorem pixelAt_paste {canvas img : RasterImage} {useMask : Bool} {x y : Nat}
    (hx : x < canvas.width) (hy : y < canvas.height) :
    pixelAt (paste canvas img useMask) x y =
      if x < img.width ∧ y < img.height then
        (if useMask then blendPixel (pixelAt img x y) (pixelAt canvas x y) (pixelAt img x y).a
         else ⟨(pixelAt img x y).r, (pixelAt img x y).g, (pixelAt img x y).b, 255⟩)
      else pixelAt canvas x y :=
  pixelAt_mkImage hx hy

theorem add_bg_of_rgba {image : RasterImage} (color : Color) (hm : image.mode = Mode.RGBA) :
    add_bg image color
      = paste (imageNew Mode.RGB image.width image.height color.toPixel) image true := by
  unfold add_bg
  rw [if_pos hm]

/-- Claim C4: in the replace-background path, alpha blending against the
chosen colour happens exactly when the source mode carries an alpha channel
(RGBA): an RGBA image is blended pixel-wise against the colour using its own
alpha, while a non-RGBA image is only converted to an opaque 3-channel image
— the colour never enters. -/
theorem claim_C4 (image : RasterImage) (color : Color) :
    (image.mode = Mode.RGB → add_bg image color = convertRGB image) ∧
    (image.mode = Mode.RGBA → ∀ x y, x < image.width → y < image.height →
      pixelAt (add_bg image color) x y
        = blendPixel (pixelAt image x y) color.toPixel (pixelAt image x y).a) := by
  constructor
  · intro hm
    unfold add_bg
    rw [if_neg (by rw [hm]; intro hc; cases hc)]
  · intro hm x y hx hy
    rw [add_bg_of_rgba color hm]
    have hpp := @pixelAt_paste (imageNew Mode.RGB image.width image.height color.toPixel)
      image true x y hx hy
    rw [hpp, if_pos ⟨hx, hy⟩, if_pos rfl, pixelAt_imageNew hx hy]

/-- Witness for claim C4 at a concrete opaque RGB image and a concrete RGBA
image. -/
theorem claim_C4_witness :
    add_bg imgRGB1 blueColor = convertRGB imgRGB1 ∧
    pixelAt (add_bg imgRGBA1 blueColor) 0 0
      = blendPixel (pixelAt imgRGBA1 0 0) blueColor.toPixel (pixelAt imgRGBA1 0 0).a :=
  ⟨(claim_C4 imgRGB1 blueColor).1 rfl,
   (claim_C4 imgRGBA1 blueColor).2 rfl 0 0 (by decide) (by decide)⟩

/-- Claim C5: add_bg on a fully transparent RGBA image yields an opaque
image every pixel of which is exactly the fill colour. -/
theorem claim_C5 (color : Color) (image : RasterImage)
    (hm : image.mode = Mode.RGBA)
    (hlen : image.pixels.length = image.width * image.height)
    (ha : ∀ p ∈ image.pixels, p.a = 0) :
    (add_bg image color).mode = Mode.RGB ∧
    ∀ p ∈ (add_bg image color).pixels, p = color.toPixel := by
  rw [add_bg_of_rgba color hm]
  refine ⟨rfl, ?_⟩
  intro p hp
  simp only [paste, imageNew_width, imageNew_height, imageNew_mode] at hp
  obtain ⟨i, hi, he⟩ := mem_mkImage_pixels hp
  subst he
  have hw : 0 < image.width := by
    rcases Nat.eq_zero_or_pos image.width with h0 | h0
    · rw [h0] at hi; simp at hi
    · exact h0
  have hx : i % image.width < image.width := Nat.mod_lt _ hw
  have hy : i / image.width < image.height := by
    rw [Nat.div_lt_iff_lt_mul hw]
    exact lt_of_lt_of_eq hi (Nat.mul_comm _ _)
  rw [if_pos ⟨hx, hy⟩, if_pos trivial]
  rw [pixelAt_imageNew hx hy]
  have hidx : (i / image.width) * image.width + i % image.width = i := by
    rw [Nat.mul_comm]
    exact Nat.div_add_mod i image.width
  have hilen : i < image.pixels.length := by rw [hlen]; exact hi
  have hpa : (pixelAt image (i % image.width) (i / image.width)).a = 0 := by
    unfold pixelAt
    rw [hidx, List.getD_eq_getElem _ _ hilen]
    exact ha _ (List.getElem_mem hilen)
  rw [hpa]
  simp only [blendPixel, blendChannel, Color.toPixel, Pixel.mk.injEq]
  refine ⟨?_, ?_, ?_, trivial⟩ <;> omega

/-- Witness for claim C5 at a concrete fully transparent 1×1 RGBA image and
the blue fill colour. -/
theorem claim_C5_witness :
    (add_bg imgTransparent1 blueColor).mode = Mode.RGB ∧
    pixelAt (add_bg imgTransparent1 blueColor) 0 0 = blueColor.toPixel := by
  have h := claim_C5 blueColor imgTransparent1 rfl rfl (by decide)
  exact ⟨h.1, h.2 _ (by decide)⟩

/-! ## PNG codec: soundness and lossless round trip -/

theorem byteToMode_toByte (m : Mode) : byteToMode m.toByte = some m := by
  cases m <;> rfl

theorem dec32_enc32 {n : Nat} (h : n < 4294967296) (rest : List Nat) :
    dec32 (enc32 n ++ rest) = some (n, rest) := by
  unfold enc32 dec32
  simp only [List.cons_append, List.nil_append]
  rw [if_pos ⟨Nat.mod_lt _ (by omega), Nat.mod_lt _ (by omega), Nat.mod_lt _ (by omega),
    Nat.mod_lt _ (by omega)⟩]
  simp only [Option.some.injEq, Prod.mk.injEq]
  exact ⟨by omega, trivial⟩

theorem dec32_bound {bs : List Nat} {n : Nat} {rest : List Nat}
    (h : dec32 bs = some (n, rest)) : n < 4294967296 := by
  unfold dec32 at h
  match bs with
  | [] => cases h
  | [_] => cases h
  | [_, _] => cases h
  | [_, _, _] => cases h
  | b0 :: b1 :: b2 :: b3 :: r =>
    simp only at h
    split at h
    · simp only [Option.some.injEq, Prod.mk.injEq] at h
      omega
    · cases h

theorem decodePixels_encodePixel (m : Mode) (ps : List Pixel)
    (hp : ∀ p ∈ ps, PixelWF m p) :
    decodePixels m ps.length ((ps.map (encodePixel m)).flatten) = some ps := by
  induction ps with
  | nil => cases m <;> rfl
  | cons p ps ih =>
    obtain ⟨h1, h2, h3, h4, h5⟩ := hp p (List.mem_cons_self p ps)
    have hrest : ∀ q ∈ ps, PixelWF m q := fun q hq => hp q (List.mem_cons_of_mem p hq)
    cases m with
    | RGB =>
      have hpa : p = ⟨p.r, p.g, p.b, 255⟩ := by
        obtain ⟨r, g, b, a⟩ := p
        have ha := h5 rfl
        simp_all
      simp only [List.map_cons, List.flatten_cons, encodePixel, List.length_cons,
        List.cons_append, List.nil_append, decodePixels]
      rw [if_pos ⟨h1, h2, h3⟩, ih hrest]
      simp only [Option.map_some', Option.some.injEq]
      rw [← hpa]
    | RGBA =>
      have hpa : p = ⟨p.r, p.g, p.b, p.a⟩ := rfl
      simp only [List.map_cons, List.flatten_cons, encodePixel, List.length_cons,
        List.cons_append, List.nil_append, decodePixels]
      rw [if_pos ⟨h1, h2, h3, h4⟩, ih hrest]
      simp only [Option.map_some', Option.some.injEq]

theorem decodePixels_sound (m : Mode) : ∀ (k : Nat) (bs : List Nat) (ps : List Pixel),
    decodePixels m k bs = some ps → ps.length = k ∧ ∀ p ∈ ps, PixelWF m p := by
  intro k
  induction k with
  | zero =>
    intro bs ps h
    cases bs with
    | nil =>
      simp only [decodePixels, Option.some.injEq] at h
      subst h
      simp
    | cons b bs =>
      simp only [decodePixels] at h
      exact Option.noConfusion h
  | succ k ih =>
    intro bs ps h
    cases m with
    | RGB =>
      match bs with
      | [] => cases h
      | [_] => cases h
      | [_, _] => cases h
      | r :: g :: b :: rest =>
        simp only [decodePixels] at h
        split at h
        · rw [Option.map_eq_some'] at h
          obtain ⟨ps', hps', rfl⟩ := h
          obtain ⟨hlen, hwf⟩ := ih rest ps' hps'
          refine ⟨by simp [hlen], ?_⟩
          intro p hp
          rcases List.mem_cons.mp hp with rfl | hp2
          · rename_i hcond
            exact ⟨hcond.1, hcond.2.1, hcond.2.2, show (255:Nat) < 256 by omega, fun _ => rfl⟩
          · exact hwf p hp2
        · cases h
    | RGBA =>
      match bs with
      | [] => cases h
      | [_] => cases h
      | [_, _] => cases h
      | [_, _, _] => cases h
      | r :: g :: b :: a :: rest =>
        simp only [decodePixels] at h
        split at h
        · rw [Option.map_eq_some'] at h
          obtain ⟨ps', hps', rfl⟩ := h
          obtain ⟨hlen, hwf⟩ := ih rest ps' hps'
          refine ⟨by simp [hlen], ?_⟩
          intro p hp
          rcases List.mem_cons.mp hp with rfl | hp2
          · rename_i hcond
            exact ⟨hcond.1, hcond.2.1, hcond.2.2.1, hcond.2.2.2, fun hrgb => by cases hrgb⟩
          · exact hwf p hp2
        · cases h

theorem decodePNG_WF {bs : List Nat} {img : RasterImage}
    (h : decodePNG bs = some img) : WF img := by
  unfold decodePNG at h
  cases bs with
  | nil => cases h
  | cons t rest =>
    dsimp only at h
    simp only [Option.bind_eq_bind, Option.bind_eq_some, Option.pure_def,
      Option.some.injEq] at h
    obtain ⟨m, hm, d1, hd1, d2, hd2, ps, hps, himg⟩ := h
    obtain ⟨w1, r1⟩ := d1
    obtain ⟨w2, r2⟩ := d2
    obtain ⟨hlen, hwf⟩ := decodePixels_sound m _ _ _ hps
    subst himg
    exact ⟨hlen, dec32_bound hd1, dec32_bound hd2, hwf⟩

theorem decodePNG_encodePNG {img : RasterImage} (h : WF img) :
    decodePNG (encodePNG img) = some img := by
  obtain ⟨hlen, hw, hh, hpix⟩ := h
  unfold encodePNG decodePNG
  rw [List.append_assoc]
  simp only [byteToMode_toByte, Option.bind_eq_bind, Option.some_bind]
  rw [dec32_enc32 hw]
  simp only [Option.some_bind]
  rw [dec32_enc32 hh]
  simp only [Option.some_bind]
  rw [← hlen, decodePixels_encodePixel img.mode img.pixels hpix]
  simp only [Option.some_bind]
  rfl

/-! ## Well-formedness preservation through the pipeline -/

theorem pixelWF_default (m : Mode) : PixelWF m defaultPixel :=
  ⟨by decide, by decide, by decide, by decide, fun _ => rfl⟩

theorem pixelAt_WF {img : RasterImage} (h : WF img) (x y : Nat) :
    PixelWF img.mode (pixelAt img x y) := by
  unfold pixelAt
  exact getD_prop _ _ _ (fun p hp => h.2.2.2 p hp) (pixelWF_default _)

theorem mkImage_WF {w h : Nat} {m : Mode} {f : Nat → Nat → Pixel}
    (hw : w < 4294967296) (hh : h < 4294967296)
    (hf : ∀ x y, PixelWF m (f x y)) : WF (mkImage w h m f) := by
  refine ⟨by simp [mkImage], hw, hh, ?_⟩
  intro p hp
  obtain ⟨i, hi, rfl⟩ := mem_mkImage_pixels hp
  exact hf _ _

theorem resize_WF {img : RasterImage} {size : Nat × Nat} (h : WF img)
    (hw : size.1 < 4294967296) (hh : size.2 < 4294967296) : WF (resize img size) := by
  unfold resize
  exact mkImage_WF hw hh (fun x y => pixelAt_WF h _ _)

theorem blendChannel_lt {fg bg alpha : Nat} (hfg : fg < 256) (hbg : bg < 256)
    (ha : alpha < 256) : blendChannel fg bg alpha < 256 := by
  unfold blendChannel
  have h1 : fg * alpha ≤ 255 * alpha := Nat.mul_le_mul_right alpha (by omega)
  have h2 : bg * (255 - alpha) ≤ 255 * (255 - alpha) := Nat.mul_le_mul_right _ (by omega)
  have h4 : alpha + (255 - alpha) = 255 := by omega
  have h3 : 255 * alpha + 255 * (255 - alpha) = 65025 := by
    rw [← Nat.mul_add, h4]
  have hsum : fg * alpha + bg * (255 - alpha) ≤ 65025 := by
    calc fg * alpha + bg * (255 - alpha) ≤ 255 * alpha + 255 * (255 - alpha) :=
      Nat.add_le_add h1 h2
    _ = 65025 := h3
  calc (fg * alpha + bg * (255 - alpha)) / 255 ≤ 65025 / 255 := Nat.div_le_div_right hsum
  _ < 256 := by norm_num

theorem paste_WF {canvas img : RasterImage} {useMask : Bool}
    (hc : WF canvas) (hi : WF img) : WF (paste canvas img useMask) := by
  unfold paste
  refine mkImage_WF hc.2.1 hc.2.2.1 ?_
  intro x y
  dsimp only
  split
  · have hp := pixelAt_WF hi x y
    have hq := pixelAt_WF hc x y
    split
    · exact ⟨blendChannel_lt hp.1 hq.1 hp.2.2.2.1, blendChannel_lt hp.2.1 hq.2.1 hp.2.2.2.1,
        blendChannel_lt hp.2.2.1 hq.2.2.1 hp.2.2.2.1, show (255:Nat) < 256 by omega,
        fun _ => rfl⟩
    · exact ⟨hp.1, hp.2.1, hp.2.2.1, show (255:Nat) < 256 by omega, fun _ => rfl⟩
  · exact pixelAt_WF hc x y

theorem imageNew_WF {m : Mode} {w h : Nat} {c : Pixel} (hw : w < 4294967296)
    (hh : h < 4294967296) (hc : PixelWF m c) : WF (imageNew m w h c) :=
  mkImage_WF hw hh (fun _ _ => hc)

theorem convertRGB_WF {img : RasterImage} (h : WF img) : WF (convertRGB img) := by
  obtain ⟨hlen, hw, hh, hp⟩ := h
  refine ⟨by simpa [convertRGB] using hlen, hw, hh, ?_⟩
  intro p hp2
  simp only [convertRGB, List.mem_map] at hp2
  obtain ⟨q, hq, rfl⟩ := hp2
  have hqw := hp q hq
  exact ⟨hqw.1, hqw.2.1, hqw.2.2.1, show (255:Nat) < 256 by omega, fun _ => rfl⟩

theorem add_bg_WF {image : RasterImage} {color : Color} (h : WF image)
    (hc : ColorWF color) : WF (add_bg image color) := by
  by_cases hm : image.mode = Mode.RGBA
  · rw [add_bg_of_rgba color hm]
    refine paste_WF (imageNew_WF h.2.1 h.2.2.1 ?_) h
    exact ⟨hc.1, hc.2.1, hc.2.2, show (255:Nat) < 256 by omega, fun _ => rfl⟩
  · unfold add_bg
    rw [if_neg hm]
    exact convertRGB_WF h

theorem compositeBackground_WF {image : RasterImage} {color : Color} {enabled : Bool}
    (h : WF image) (hc : ColorWF color) : WF (compositeBackground image color enabled) := by
  unfold compositeBackground
  split
  · exact add_bg_WF h hc
  · exact h

theorem compress_and_resize_WF {image : RasterImage} {size : Nat × Nat} (h : WF image)
    (hw : size.1 < 4294967296) (hh : size.2 < 4294967296) :
    WF (compress_and_resize image size) := by
  unfold compress_and_resize
  exact paste_WF (imageNew_WF hw hh (by decide)) (resize_WF h hw hh)

/-! ## Per-result characterisation of process_images -/

theorem process_one_eq_some {rm : RasterImage → RasterImage} {base : String}
    {size : Nat × Nat} {replace_bg : Bool} {bg_color : Color} {idx : Nat}
    {f : List Nat} {r : ProcessedResult}
    (h : process_one rm base size replace_bg bg_color idx f = some r) :
    ∃ img0, decodePNG f = some img0 ∧
      r.name = base ++ "_" ++ toString idx ++ ".png" ∧
      r.img = compress_and_resize
        (compositeBackground (remove_background rm img0) bg_color replace_bg) size ∧
      r.buf = encodePNG r.img := by
  unfold process_one at h
  rw [Option.map_eq_some'] at h
  obtain ⟨img0, h0, hr⟩ := h
  subst hr
  exact ⟨img0, h0, rfl, rfl, rfl⟩

theorem process_images_go_mem {rm : RasterImage → RasterImage} {base : String}
    {size : Nat × Nat} {replace_bg : Bool} {bg_color : Color} :
    ∀ (idx : Nat) (files : List (List Nat)) (results : List ProcessedResult),
      process_images_go rm base size replace_bg bg_color idx files = some results →
      ∀ r ∈ results, ∃ j f, process_one rm base size replace_bg bg_color j f = some r := by
  intro idx files
  induction files generalizing idx with
  | nil =>
    intro results h r hr
    simp only [process_images_go, Option.some.injEq] at h
    subst h
    simp at hr
  | cons f fs ih =>
    intro results h r hr
    simp only [process_images_go] at h
    cases hpo : process_one rm base size replace_bg bg_color idx f with
    | none => rw [hpo] at h; cases h
    | some r0 =>
      rw [hpo] at h
      cases hgo : process_images_go rm base size replace_bg bg_color (idx + 1) fs with
      | none => rw [hgo] at h; cases h
      | some rs =>
        rw [hgo] at h
        simp only [Option.map_some', Option.some.injEq] at h
        subst h
        rcases List.mem_cons.mp hr with rfl | hr2
        · exact ⟨idx, f, hpo⟩
        · exact ih (idx + 1) rs hgo r hr2

/-- Claim C2: every ProcessedResult of the pipeline satisfies the lossless
round-trip invariant: its PNG byte buffer decodes back to an image
pixel-identical to its stored image.  The hypotheses state that the external
segmentation model returns well-formed images, that the requested dimensions
fit the PNG 4-byte fields, and that the background colour channels are
bytes. -/
theorem claim_C2 (rm : RasterImage → RasterImage) (files : List (List Nat)) (base : String)
    (size : Nat × Nat) (replace_bg : Bool) (bg_color : Color)
    (results : List ProcessedResult)
    (hrm : ∀ i, WF i → WF (rm i))
    (hw : size.1 < 4294967296) (hh : size.2 < 4294967296)
    (hc : ColorWF bg_color)
    (hres : process_images rm files base size replace_bg bg_color = some results) :
    ∀ r ∈ results, decodePNG r.buf = some r.img := by
  intro r hr
  obtain ⟨j, f, hpo⟩ := process_images_go_mem 1 files results hres r hr
  obtain ⟨img0, h0, _, himg, hbuf⟩ := process_one_eq_some hpo
  have hwf0 : WF img0 := decodePNG_WF h0
  have hwf3 : WF r.img := by
    rw [himg]
    exact compress_and_resize_WF (compositeBackground_WF (hrm _ hwf0) hc) hw hh
  rw [hbuf]
  exact decodePNG_encodePNG hwf3

/-- Witness for claim C2 on a concrete one-file batch. -/
theorem claim_C2_witness : decodePNG sampleResult.buf = some sampleResult.img := by
  have h := claim_C2 (fun i => i) [sampleBytes] "x" (1, 1) false WHITE_COLOR sampleResults
    (fun i hi => hi) (by norm_num) (by norm_num) (by decide) rfl
  exact h sampleResult (by decide)

/-! ## Decimal representation: injectivity of Nat.repr -/

theorem decDigit_digitChar {d : Nat} (h : d < 10) : decDigit (Nat.digitChar d) = d := by
  interval_cases d <;> rfl

theorem toDigitsCore_append (b : Nat) :
    ∀ (fuel n : Nat) (acc : List Char),
      Nat.toDigitsCore b fuel n acc = Nat.toDigitsCore b fuel n [] ++ acc := by
  intro fuel
  induction fuel with
  | zero => intro n acc; simp [Nat.toDigitsCore]
  | succ f ih =>
    intro n acc
    simp only [Nat.toDigitsCore]
    split
    · simp
    · rw [ih (n / b) (Nat.digitChar (n % b) :: acc), ih (n / b) [Nat.digitChar (n % b)]]
      simp

theorem decValue_append (xs ys : List Char) :
    decValue (xs ++ ys) = List.foldl (fun acc c => acc * 10 + decDigit c) (decValue xs) ys := by
  unfold decValue
  rw [List.foldl_append]

theorem decValue_toDigitsCore :
    ∀ (fuel n : Nat), n < 10 ^ fuel →
      decValue (Nat.toDigitsCore 10 fuel n []) = n := by
  intro fuel
  induction fuel with
  | zero =>
    intro n h
    simp only [pow_zero, Nat.lt_one_iff] at h
    subst h
    rfl
  | succ f ih =>
    intro n h
    simp only [Nat.toDigitsCore]
    split
    · rename_i h0
      simp only [decValue, List.foldl_cons, List.foldl_nil]
      rw [decDigit_digitChar (by omega : n % 10 < 10)]
      omega
    · rename_i h0
      rw [toDigitsCore_append 10 f (n / 10) [Nat.digitChar (n % 10)], decValue_append]
      simp only [List.foldl_cons, List.foldl_nil]
      have hdiv : n / 10 < 10 ^ f := by
        rw [Nat.div_lt_iff_lt_mul (by norm_num)]
        calc n < 10 ^ (f + 1) := h
        _ = 10 ^ f * 10 := by rw [pow_succ]
      rw [ih (n / 10) hdiv, decDigit_digitChar (Nat.mod_lt _ (by norm_num))]
      omega

theorem natRepr_injective : Function.Injective Nat.repr := by
  intro m n h
  have hbound : ∀ k : Nat, k < 10 ^ (k + 1) := by
    intro k
    calc k < 2 ^ k := Nat.lt_two_pow k
    _ ≤ 10 ^ k := Nat.pow_le_pow_left (by norm_num) k
    _ ≤ 10 ^ (k + 1) := Nat.pow_le_pow_right (by norm_num) (Nat.le_succ k)
  have hm := decValue_toDigitsCore (m + 1) m (hbound m)
  have hn := decValue_toDigitsCore (n + 1) n (hbound n)
  have hdata : Nat.toDigitsCore 10 (m + 1) m [] = Nat.toDigitsCore 10 (n + 1) n [] := by
    have hd := congrArg String.data h
    simpa [Nat.repr, Nat.toDigits, List.asString] using hd
  rw [← hm, hdata, hn]

theorem toString_nat_eq_repr (n : Nat) : toString n = Nat.repr n := rfl

theorem name_index_injective (base : String) :
    Function.Injective (fun i : Nat => base ++ "_" ++ toString i ++ ".png") := by
  intro i j h
  simp only at h
  have hd := congrArg String.data h
  simp only [String.data_append, List.append_assoc] at hd
  have h2 := List.append_cancel_left (List.append_cancel_left hd)
  have h3 := List.append_cancel_right h2
  have h4 : toString i = toString j := String.ext h3
  rw [toString_nat_eq_repr, toString_nat_eq_repr] at h4
  exact natRepr_injective h4

/-! ## Filenames and ordering of process_images outputs -/

theorem process_images_go_names {rm : RasterImage → RasterImage} {base : String}
    {size : Nat × Nat} {replace_bg : Bool} {bg_color : Color} :
    ∀ (idx : Nat) (files : List (List Nat)) (results : List ProcessedResult),
      process_images_go rm base size replace_bg bg_color idx files = some results →
      results.map (fun r => r.name)
        = (List.range files.length).map
            (fun i => base ++ "_" ++ toString (idx + i) ++ ".png") := by
  intro idx files
  induction files generalizing idx with
  | nil =>
    intro results h
    simp only [process_images_go, Option.some.injEq] at h
    subst h
    simp
  | cons f fs ih =>
    intro results h
    simp only [process_images_go] at h
    cases hpo : process_one rm base size replace_bg bg_color idx f <;> rw [hpo] at h
    · cases h
    · rename_i r0
      cases hgo : process_images_go rm base size replace_bg bg_color (idx + 1) fs
        <;> rw [hgo] at h
      · cases h
      · rename_i rs
        simp only [Option.map_some', Option.some.injEq] at h
        subst h
        obtain ⟨img0, _, hname, _, _⟩ := process_one_eq_some hpo
        rw [List.length_cons, List.range_succ_eq_map, List.map_cons, List.map_cons, hname]
        congr 1
        rw [ih (idx + 1) rs hgo, List.map_map]
        refine List.map_congr_left ?_
        intro a _
        simp only [Function.comp_apply]
        have hsucc : idx + Nat.succ a = idx + 1 + a := by omega
        rw [hsucc]

theorem process_images_go_getElem {rm : RasterImage → RasterImage} {base : String}
    {size : Nat × Nat} {replace_bg : Bool} {bg_color : Color} :
    ∀ (idx : Nat) (files : List (List Nat)) (results : List ProcessedResult),
      process_images_go rm base size replace_bg bg_color idx files = some results →
      ∀ i, results[i]?
        = (files[i]?).bind (process_one rm base size replace_bg bg_color (idx + i)) := by
  intro idx files
  induction files generalizing idx with
  | nil =>
    intro results h i
    simp only [process_images_go, Option.some.injEq] at h
    subst h
    simp
  | cons f fs ih =>
    intro results h i
    simp only [process_images_go] at h
    cases hpo : process_one rm base size replace_bg bg_color idx f <;> rw [hpo] at h
    · cases h
    · rename_i r0
      cases hgo : process_images_go rm base size replace_bg bg_color (idx + 1) fs
        <;> rw [hgo] at h
      · cases h
      · rename_i rs
        simp only [Option.map_some', Option.some.injEq] at h
        subst h
        cases i with
        | zero =>
          simp only [List.getElem?_cons_zero, Option.some_bind, Nat.add_zero]
          rw [hpo]
        | succ i =>
          simp only [List.getElem?_cons_succ]
          rw [ih (idx + 1) rs hgo i]
          have : idx + 1 + i = idx + (i + 1) := by omega
          rw [this]

/-- Claim C7: for every successfully processed batch the generated
filenames are exactly baseName, underscore, the 1-based input position,
dot png; they are pairwise distinct, and the results correspond to the
inputs position by position (same relative order). -/
theorem claim_C7 (rm : RasterImage → RasterImage) (files : List (List Nat)) (base : String)
    (size : Nat × Nat) (replace_bg : Bool) (bg_color : Color)
    (results : List ProcessedResult)
    (hres : process_images rm files base size replace_bg bg_color = some results) :
    results.length = files.length ∧
    results.map (fun r => r.name)
      = (List.range files.length).map (fun i => base ++ "_" ++ toString (i + 1) ++ ".png") ∧
    (results.map (fun r => r.name)).Nodup ∧
    ∀ i, results[i]?
      = (files[i]?).bind (process_one rm base size replace_bg bg_color (i + 1)) := by
  have hnames := process_images_go_names 1 files results hres
  have hnames2 : results.map (fun r => r.name)
      = (List.range files.length).map (fun i => base ++ "_" ++ toString (i + 1) ++ ".png") := by
    rw [hnames]
    refine List.map_congr_left ?_
    intro a _
    rw [Nat.add_comm]
  refine ⟨?_, hnames2, ?_, ?_⟩
  · have hlen := congrArg List.length hnames2
    simpa using hlen
  · rw [hnames2]
    refine List.Nodup.map ?_ (List.nodup_range _)
    intro i j hij
    have := name_index_injective base hij
    omega
  · intro i
    rw [process_images_go_getElem 1 files results hres i, Nat.add_comm 1 i]

/-- Witness for claim C7 on a concrete two-file batch. -/
theorem claim_C7_witness :
    sampleResults2.length = 2 ∧
    sampleResults2.map (fun r => r.name)
      = (List.range 2).map (fun i => "b" ++ "_" ++ toString (i + 1) ++ ".png") ∧
    (sampleResults2.map (fun r => r.name)).Nodup ∧
    sampleResults2[0]?
      = (([sampleBytes, sampleBytes2])[0]?).bind
          (process_one (fun i => i) "b" (1, 1) false WHITE_COLOR 1) := by
  have h := claim_C7 (fun i => i) [sampleBytes, sampleBytes2] "b" (1, 1) false WHITE_COLOR
    sampleResults2 rfl
  exact ⟨h.1, h.2.1, h.2.2.1, h.2.2.2 0⟩

/-! ## Decode failures abort the whole batch (C1) -/

theorem process_images_go_none_of_decode_failure {rm : RasterImage → RasterImage}
    {base : String} {size : Nat × Nat} {replace_bg : Bool} {bg_color : Color} :
    ∀ (idx : Nat) (files : List (List Nat)),
      (∃ f ∈ files, decodePNG f = none) →
      process_images_go rm base size replace_bg bg_color idx files = none := by
  intro idx files
  induction files generalizing idx with
  | nil =>
    intro h
    obtain ⟨f, hf, _⟩ := h
    simp at hf
  | cons f fs ih =>
    intro h
    obtain ⟨g, hg, hdec⟩ := h
    simp only [process_images_go]
    rcases List.mem_cons.mp hg with rfl | hg2
    · have hnone : process_one rm base size replace_bg bg_color idx g = none := by
        unfold process_one
        rw [hdec]
        rfl
      rw [hnone]
    · cases hpo : process_one rm base size replace_bg bg_color idx f
      · rfl
      · rw [ih (idx + 1) ⟨g, hg2, hdec⟩]
        rfl

/-- Claim C1 (amended): a decode failure is not isolated to its input: if
any input of the batch fails to decode, process_images raises, the whole
batch aborts, and no ProcessedResult is produced — not even for the valid
sibling inputs. -/
theorem claim_C1_amended (rm : RasterImage → RasterImage) (files : List (List Nat))
    (base : String) (size : Nat × Nat) (replace_bg : Bool) (bg_color : Color)
    (h : ∃ f ∈ files, decodePNG f = none) :
    process_images rm files base size replace_bg bg_color = none :=
  process_images_go_none_of_decode_failure 1 files h

/-- Counterexample to claim C1 as stated: a concrete batch of two files
whose second is a corrupt byte stream.  The valid file alone would produce
a result, but the two-file batch yields none at all instead of exactly one
ProcessedResult — the batch aborts. -/
theorem claim_C1_counterexample :
    (process_images (fun i => i) [sampleBytes] "cleaned" (1, 1) false WHITE_COLOR).isSome
      = true ∧
    process_images (fun i => i) [sampleBytes, [1, 2, 3]] "cleaned" (1, 1) false WHITE_COLOR
      = none :=
  ⟨rfl, rfl⟩

/-- Witness for claim C1 (amended) at a concrete batch whose first input is
corrupt. -/
theorem claim_C1_amended_witness :
    process_images (fun i => i) [[9, 9], sampleBytes] "cleaned" (1, 1) false WHITE_COLOR
      = none :=
  claim_C1_amended _ _ _ _ _ _ ⟨[9, 9], List.mem_cons_self _ _, rfl⟩

/-! ## URL fetch failures are skipped, never aborting the batch (C6) -/

theorem previewURLs_go (net : String → Except String (List Nat)) :
    ∀ (urls : List String) (acc : List (List Nat) × List String),
      urls.foldl
        (fun acc url =>
          let r := download_image_from_url net url
          match r.1 with
          | some buf => (acc.1 ++ [buf], acc.2 ++ r.2)
          | none => (acc.1, acc.2 ++ r.2)) acc
        = (acc.1 ++ urls.filterMap (fun u => (download_image_from_url net u).1),
           acc.2 ++ urls.filterMap (fun u =>
             match net u with
             | Except.ok _ => none
             | Except.error e => some (fetchWarning u e))) := by
  intro urls
  induction urls with
  | nil => intro acc; simp
  | cons u us ih =>
    intro acc
    rw [List.foldl_cons]
    cases hnet : net u with
    | ok content =>
      rw [ih]
      simp [download_image_from_url, hnet, List.filterMap_cons]
    | error e =>
      rw [ih]
      simp [download_image_from_url, hnet, List.filterMap_cons]

/-- Claim C6: a URL fetch failure is recovered locally: the handler keeps
exactly the buffers of the successfully fetched URLs, in input order, and
surfaces one warning per failed URL — a failure never aborts the batch. -/
theorem claim_C6 (net : String → Except String (List Nat)) (urls : List String) :
    (previewURLs net urls).1
      = urls.filterMap (fun u => (download_image_from_url net u).1) ∧
    (previewURLs net urls).2
      = urls.filterMap (fun u =>
          match net u with
          | Except.ok _ => none
          | Except.error e => some (fetchWarning u e)) := by
  unfold previewURLs
  rw [previewURLs_go net urls ([], [])]
  simp

/-! ## Startup behaviour on a missing dependency (C9) -/

/-- Claim C9 evaluated at the failing input: with only PIL missing — a
required module that the guard message itself tells the user to install —
startup dies with an unhandled ModuleNotFoundError from the top-level
import, never reaching the guard that prints the install instructions and
exits; the second conjunct checks that PIL is indeed the only missing
required module in this environment. -/
theorem claim_C9_bug :
    startup availExceptPIL = StartOutcome.unhandledError "PIL" ∧
    requiredModules.filter (fun m => !availExceptPIL m) = ["PIL"] :=
  ⟨rfl, rfl⟩

end BGRemover
